import Mathlib

/-!
Verification of the PolkaToken ledger (`src/lib.rs`, ink! contract `PspCoin`)
against its natural-language specification.

The contract state is embedded shallowly: `u128` amounts become `Nat` with
explicit checked arithmetic against `2 ^ 128 - 1`, the ink! storage `Mapping`
becomes an association list with first-match lookup and overwrite-or-append
insertion, and each `#[ink(message)]` becomes a function from state to a
result paired with the next state.  ink! sets the REVERT flag whenever a
message returns `Err`, rolling back every state change of the call, so each
message body (translated literally, keeping any partial writes the Rust code
performs before an error exit) is wrapped in `msg`, which restores the
pre-call state on error.  `PspCoin` declares no events and never emits one;
the `events` field models the host event log, which every `PspCoin` message
leaves untouched.
-/

namespace PolkaToken

/-- Opaque account identity (`AccountId` in ink!); only equality is used. -/
abbrev AccountId := Nat

/-- Largest value representable in a `u128`. -/
def U128_MAX : Nat := 2 ^ 128 - 1

/-- `u128::checked_add`: `none` exactly when the sum would exceed `u128::MAX`. -/
def checked_add (a b : Nat) : Option Nat :=
  if a + b ≤ U128_MAX then some (a + b) else none

/-- `u128::checked_sub`: `none` exactly when the subtrahend exceeds the minuend. -/
def checked_sub (a b : Nat) : Option Nat :=
  if b ≤ a then some (a - b) else none

/-- ink! storage `Mapping` modelled as an association list; `Mapping.get`
returns the value stored at the first matching key, or `none`. -/
def Mapping.get {κ : Type} [DecidableEq κ] : List (κ × Nat) → κ → Option Nat
  | [], _ => none
  | e :: rest, k => if e.1 = k then some e.2 else Mapping.get rest k

/-- `Mapping.insert` overwrites the entry of the key, or appends a fresh one. -/
def Mapping.insert {κ : Type} [DecidableEq κ] : List (κ × Nat) → κ → Nat → List (κ × Nat)
  | [], k, v => [(k, v)]
  | e :: rest, k, v => if e.1 = k then (k, v) :: rest else e :: Mapping.insert rest k v

/-- Sum of every materialized entry of a mapping. -/
def sumVals {κ : Type} : List (κ × Nat) → Nat
  | [] => 0
  | e :: rest => e.2 + sumVals rest

/-- `PSP22Error` from `src/lib.rs`. -/
inductive PSP22Error where
  | insufficientBalance
  | insufficientAllowance
  | custom (message : String)
deriving DecidableEq

/-- Domain events of the spec's event model (Transfer with optional
endpoints, Approval).  `PspCoin` never constructs one. -/
inductive Event where
  | transferEvt (source target : Option AccountId) (amount : Nat)
  | approvalEvt (owner spender : AccountId) (amount : Nat)
deriving DecidableEq

/-- Outcome of an ink! message returning `Result<(), PSP22Error>`. -/
inductive MsgResult where
  | ok
  | err (e : PSP22Error)
deriving DecidableEq

/-- Storage of the `PspCoin` contract, plus the host event log. -/
structure PspCoin where
  total_supply : Nat
  balances : List (AccountId × Nat)
  allowances : List ((AccountId × AccountId) × Nat)
  name : String
  symbol : String
  decimals : Nat
  events : List Event
deriving DecidableEq

/-- Constructor `new`: zero supply, empty maps. -/
def new : PspCoin :=
  { total_supply := 0
    balances := []
    allowances := []
    name := "PolkaToken"
    symbol := "PLKT"
    decimals := 18
    events := [] }

/-- Constructor `new_with_supply`: the whole initial supply is assigned to
the caller. -/
def new_with_supply (caller : AccountId) (total_supply : Nat)
    (name symbol : String) : PspCoin :=
  { total_supply := total_supply
    balances := Mapping.insert [] caller total_supply
    allowances := []
    name := name
    symbol := symbol
    decimals := 18
    events := [] }

/-- Query `balance_of`: `self.balances.get(owner).unwrap_or(0)`. -/
def balance_of (self : PspCoin) (owner : AccountId) : Nat :=
  (Mapping.get self.balances owner).getD 0

/-- Query `allowance`: `self.allowances.get((owner, spender)).unwrap_or(0)`. -/
def allowance (self : PspCoin) (owner spender : AccountId) : Nat :=
  (Mapping.get self.allowances (owner, spender)).getD 0

/-- ink! message semantics: a message returning `Err` sets the REVERT flag,
so the host discards every state change made by the call. -/
def msg (body : PspCoin → MsgResult × PspCoin) (self : PspCoin) :
    MsgResult × PspCoin :=
  match body self with
  | (.ok, s) => (.ok, s)
  | (.err e, _) => (.err e, self)

/-- Internal helper `_transfer` of `src/lib.rs`, translated literally: on the
destination-overflow exit the source balance has already been written. -/
def transfer_impl (self : PspCoin) (source target : AccountId) (value : Nat) :
    MsgResult × PspCoin :=
  if source = target ∨ value = 0 then (.ok, self)
  else
    let from_balance := (Mapping.get self.balances source).getD 0
    if from_balance < value then (.err .insufficientBalance, self)
    else
      match checked_sub from_balance value with
      | none => (.err (.custom ("arithmetic underflow")), self)
      | some new_from_balance =>
        let s1 := { self with
          balances := Mapping.insert self.balances source new_from_balance }
        let to_balance := (Mapping.get s1.balances target).getD 0
        match checked_add to_balance value with
        | none => (.err (.custom ("arithmetic overflow")), s1)
        | some new_to_balance =>
          (.ok, { s1 with
            balances := Mapping.insert s1.balances target new_to_balance })

/-- Message `transfer`: `from` is the caller, then `_transfer`. -/
def transfer (self : PspCoin) (caller target : AccountId) (value : Nat) :
    MsgResult × PspCoin :=
  msg (fun s => transfer_impl s caller target value) self

/-- Body of message `transfer_from`: when the caller differs from the source
owner, check and decrement the allowance, then `_transfer`. -/
def transfer_from_body (self : PspCoin) (caller source target : AccountId)
    (value : Nat) : MsgResult × PspCoin :=
  if caller ≠ source then
    let current := (Mapping.get self.allowances (source, caller)).getD 0
    if current < value then (.err .insufficientAllowance, self)
    else
      match checked_sub current value with
      | none => (.err (.custom ("arithmetic underflow")), self)
      | some new_allowance =>
        transfer_impl
          { self with
            allowances :=
              Mapping.insert self.allowances (source, caller) new_allowance }
          source target value
  else
    transfer_impl self source target value

/-- Message `transfer_from` (revert-on-error semantics). -/
def transfer_from (self : PspCoin) (caller source target : AccountId)
    (value : Nat) : MsgResult × PspCoin :=
  msg (fun s => transfer_from_body s caller source target value) self

/-- Body of message `approve`: self-approval is a no-op, otherwise the
allowance entry is overwritten unconditionally. -/
def approve_body (self : PspCoin) (caller spender : AccountId) (value : Nat) :
    MsgResult × PspCoin :=
  if caller = spender then (.ok, self)
  else
    (.ok, { self with
      allowances := Mapping.insert self.allowances (caller, spender) value })

/-- Message `approve`. -/
def approve (self : PspCoin) (caller spender : AccountId) (value : Nat) :
    MsgResult × PspCoin :=
  msg (fun s => approve_body s caller spender value) self

/-- Body of message `increase_allowance`. -/
def increase_allowance_body (self : PspCoin) (caller spender : AccountId)
    (delta_value : Nat) : MsgResult × PspCoin :=
  if caller = spender ∨ delta_value = 0 then (.ok, self)
  else
    let current_allowance := (Mapping.get self.allowances (caller, spender)).getD 0
    match checked_add current_allowance delta_value with
    | none => (.err (.custom ("arithmetic overflow")), self)
    | some new_allowance =>
      (.ok, { self with
        allowances :=
          Mapping.insert self.allowances (caller, spender) new_allowance })

/-- Message `increase_allowance`. -/
def increase_allowance (self : PspCoin) (caller spender : AccountId)
    (delta_value : Nat) : MsgResult × PspCoin :=
  msg (fun s => increase_allowance_body s caller spender delta_value) self

/-- Body of message `decrease_allowance`. -/
def decrease_allowance_body (self : PspCoin) (caller spender : AccountId)
    (delta_value : Nat) : MsgResult × PspCoin :=
  if caller = spender ∨ delta_value = 0 then (.ok, self)
  else
    let current_allowance := (Mapping.get self.allowances (caller, spender)).getD 0
    if current_allowance < delta_value then (.err .insufficientAllowance, self)
    else
      match checked_sub current_allowance delta_value with
      | none => (.err (.custom ("arithmetic underflow")), self)
      | some new_allowance =>
        (.ok, { self with
          allowances :=
            Mapping.insert self.allowances (caller, spender) new_allowance })

/-- Message `decrease_allowance`. -/
def decrease_allowance (self : PspCoin) (caller spender : AccountId)
    (delta_value : Nat) : MsgResult × PspCoin :=
  msg (fun s => decrease_allowance_body s caller spender delta_value) self

/-- Body of message `mint`: the supply is written before the caller balance
is checked for overflow, so that exit leaves a partial write. -/
def mint_body (self : PspCoin) (caller : AccountId) (value : Nat) :
    MsgResult × PspCoin :=
  if value = 0 then (.ok, self)
  else
    match checked_add self.total_supply value with
    | none => (.err (.custom ("max supply exceeded")), self)
    | some new_supply =>
      let s1 := { self with total_supply := new_supply }
      let balance := (Mapping.get s1.balances caller).getD 0
      match checked_add balance value with
      | none => (.err (.custom ("arithmetic overflow")), s1)
      | some new_balance =>
        (.ok, { s1 with
          balances := Mapping.insert s1.balances caller new_balance })

/-- Message `mint`. -/
def mint (self : PspCoin) (caller : AccountId) (value : Nat) :
    MsgResult × PspCoin :=
  msg (fun s => mint_body s caller value) self

/-- Body of message `burn`: the caller balance is written before the supply
subtraction, so that exit leaves a partial write. -/
def burn_body (self : PspCoin) (caller : AccountId) (value : Nat) :
    MsgResult × PspCoin :=
  if value = 0 then (.ok, self)
  else
    let balance := (Mapping.get self.balances caller).getD 0
    if balance < value then (.err .insufficientBalance, self)
    else
      match checked_sub balance value with
      | none => (.err (.custom ("arithmetic underflow")), self)
      | some new_balance =>
        let s1 := { self with
          balances := Mapping.insert self.balances caller new_balance }
        match checked_sub s1.total_supply value with
        | none => (.err (.custom ("arithmetic underflow")), s1)
        | some new_total => (.ok, { s1 with total_supply := new_total })

/-- Message `burn`. -/
def burn (self : PspCoin) (caller : AccountId) (value : Nat) :
    MsgResult × PspCoin :=
  msg (fun s => burn_body s caller value) self

/-- A mutating call of the contract, carrying its authenticated caller. -/
inductive Op where
  | transferOp (caller target : AccountId) (value : Nat)
  | transferFromOp (caller source target : AccountId) (value : Nat)
  | approveOp (caller spender : AccountId) (value : Nat)
  | increaseAllowanceOp (caller spender : AccountId) (delta_value : Nat)
  | decreaseAllowanceOp (caller spender : AccountId) (delta_value : Nat)
  | mintOp (caller : AccountId) (value : Nat)
  | burnOp (caller : AccountId) (value : Nat)
deriving DecidableEq

/-- Dispatch one mutating call. -/
def applyOp (op : Op) (s : PspCoin) : MsgResult × PspCoin :=
  match op with
  | .transferOp caller target value => transfer s caller target value
  | .transferFromOp caller source target value =>
      transfer_from s caller source target value
  | .approveOp caller spender value => approve s caller spender value
  | .increaseAllowanceOp caller spender delta_value =>
      increase_allowance s caller spender delta_value
  | .decreaseAllowanceOp caller spender delta_value =>
      decrease_allowance s caller spender delta_value
  | .mintOp caller value => mint s caller value
  | .burnOp caller value => burn s caller value

/-- States reachable from a constructed state by mutating calls.  The initial
supply of `new_with_supply` is a `u128`, hence bounded; each call leaves the
state unchanged when it fails, so stepping through every call (successful or
not) subsumes stepping through the successful ones. -/
inductive Reachable : PspCoin → Prop where
  | base_new : Reachable new
  | base_with_supply (caller : AccountId) (supply : Nat) (name symbol : String) :
      supply ≤ U128_MAX → Reachable (new_with_supply caller supply name symbol)
  | step (op : Op) (s : PspCoin) : Reachable s → Reachable (applyOp op s).2

theorem Mapping.get_insert_self {κ : Type} [DecidableEq κ]
    (m : List (κ × Nat)) (k : κ) (v : Nat) :
    Mapping.get (Mapping.insert m k v) k = some v := by
  induction m with
  | nil => simp [Mapping.insert, Mapping.get]
  | cons e rest ih =>
    by_cases h : e.1 = k
    · simp [Mapping.insert, Mapping.get, h]
    · simp [Mapping.insert, Mapping.get, h, ih]

theorem Mapping.get_insert_ne {κ : Type} [DecidableEq κ]
    (m : List (κ × Nat)) (k k' : κ) (v : Nat) (hne : k' ≠ k) :
    Mapping.get (Mapping.insert m k v) k' = Mapping.get m k' := by
  have hkk : ¬ k = k' := fun h => hne h.symm
  induction m with
  | nil => simp [Mapping.insert, Mapping.get, hkk]
  | cons e rest ih =>
    by_cases h : e.1 = k
    · simp [Mapping.insert, Mapping.get, h, hkk]
    · simp only [Mapping.insert, if_neg h, Mapping.get, ih]

theorem sumVals_insert {κ : Type} [DecidableEq κ]
    (m : List (κ × Nat)) (k : κ) (v : Nat) :
    sumVals (Mapping.insert m k v) + (Mapping.get m k).getD 0 = sumVals m + v := by
  induction m with
  | nil => simp [Mapping.insert, Mapping.get, sumVals]
  | cons e rest ih =>
    by_cases h : e.1 = k
    · simp only [Mapping.insert, if_pos h, Mapping.get, sumVals, Option.getD_some]
      omega
    · simp only [Mapping.insert, if_neg h, Mapping.get, sumVals] at *
      omega

theorem get_le_sumVals {κ : Type} [DecidableEq κ]
    (m : List (κ × Nat)) (k : κ) :
    (Mapping.get m k).getD 0 ≤ sumVals m := by
  induction m with
  | nil => simp [Mapping.get, sumVals]
  | cons e rest ih =>
    by_cases h : e.1 = k
    · simp only [Mapping.get, if_pos h, sumVals, Option.getD_some]
      omega
    · simp only [Mapping.get, if_neg h, sumVals]
      omega

theorem get_pair_le_sumVals {κ : Type} [DecidableEq κ]
    (m : List (κ × Nat)) (a b : κ) (hab : a ≠ b) :
    (Mapping.get m a).getD 0 + (Mapping.get m b).getD 0 ≤ sumVals m := by
  induction m with
  | nil => simp [Mapping.get, sumVals]
  | cons e rest ih =>
    by_cases ha : e.1 = a
    · have hb : ¬ e.1 = b := fun h => hab (ha.symm.trans h)
      have hle := get_le_sumVals rest b
      simp only [Mapping.get, if_pos ha, if_neg hb, sumVals, Option.getD_some]
      omega
    · by_cases hb : e.1 = b
      · have hle := get_le_sumVals rest a
        simp only [Mapping.get, if_pos hb, if_neg ha, sumVals, Option.getD_some]
        omega
      · simp only [Mapping.get, if_neg ha, if_neg hb, sumVals] at *
        omega

theorem mem_keys_insert {κ : Type} [DecidableEq κ]
    (m : List (κ × Nat)) (k a : κ) (v : Nat)
    (h : a ∈ (Mapping.insert m k v).map Prod.fst) :
    a = k ∨ a ∈ m.map Prod.fst := by
  induction m with
  | nil => simpa [Mapping.insert] using h
  | cons e rest ih =>
    by_cases he : e.1 = k
    · simp only [Mapping.insert, if_pos he, List.map_cons, List.mem_cons] at h ⊢
      tauto
    · simp only [Mapping.insert, if_neg he, List.map_cons, List.mem_cons] at h ⊢
      rcases h with h | h
      · tauto
      · rcases ih h with h | h <;> tauto

theorem keys_nodup_insert {κ : Type} [DecidableEq κ]
    (m : List (κ × Nat)) (k : κ) (v : Nat)
    (h : (m.map Prod.fst).Nodup) :
    ((Mapping.insert m k v).map Prod.fst).Nodup := by
  induction m with
  | nil => simp [Mapping.insert]
  | cons e rest ih =>
    simp only [List.map_cons, List.nodup_cons] at h
    by_cases he : e.1 = k
    · simp only [Mapping.insert, if_pos he, List.map_cons, List.nodup_cons]
      exact ⟨he ▸ h.1, h.2⟩
    · simp only [Mapping.insert, if_neg he, List.map_cons, List.nodup_cons]
      refine ⟨fun hmem => ?_, ih h.2⟩
      rcases mem_keys_insert rest k e.1 v hmem with h1 | h1
      · exact he h1
      · exact h.1 h1

/-- The conservation invariant: the supply equals the sum of the materialized
balances, whose keys are pairwise distinct. -/
def Inv (s : PspCoin) : Prop :=
  s.total_supply = sumVals s.balances ∧ (s.balances.map Prod.fst).Nodup

theorem msg_snd_inv {P : PspCoin → Prop} (body : PspCoin → MsgResult × PspCoin)
    (s : PspCoin) (hP : P s) (hok : (body s).1 = .ok → P (body s).2) :
    P (msg body s).2 := by
  unfold msg
  rcases h : body s with ⟨r, s'⟩
  cases r with
  | ok => simpa [h] using hok (by simp [h])
  | err e => exact hP

theorem transfer_impl_spec (s : PspCoin) (f t : AccountId) (v : Nat) :
    (transfer_impl s f t v).2.total_supply = s.total_supply ∧
    (transfer_impl s f t v).2.allowances = s.allowances ∧
    (transfer_impl s f t v).2.events = s.events ∧
    ((transfer_impl s f t v).1 = .ok →
      sumVals (transfer_impl s f t v).2.balances = sumVals s.balances ∧
      ((s.balances.map Prod.fst).Nodup →
        ((transfer_impl s f t v).2.balances.map Prod.fst).Nodup)) := by
  unfold transfer_impl
  split
  · simp
  next hguard =>
    push_neg at hguard
    dsimp only
    split
    next hlt => simp
    next hlt =>
      push_neg at hlt
      have hsub : checked_sub ((Mapping.get s.balances f).getD 0) v =
          some ((Mapping.get s.balances f).getD 0 - v) := by
        unfold checked_sub
        rw [if_pos hlt]
      rw [hsub]
      dsimp only
      split
      next heq => simp
      next new_to heq =>
        have hval : new_to =
            (Mapping.get (Mapping.insert s.balances f
              ((Mapping.get s.balances f).getD 0 - v)) t).getD 0 + v := by
          unfold checked_add at heq
          split at heq
          · exact (Option.some_inj.mp heq).symm
          · exact absurd heq (by simp)
        refine ⟨rfl, rfl, rfl, fun _ => ⟨?_, fun hnd => ?_⟩⟩
        · have e1 := sumVals_insert s.balances f
            ((Mapping.get s.balances f).getD 0 - v)
          have e2 := sumVals_insert
            (Mapping.insert s.balances f ((Mapping.get s.balances f).getD 0 - v))
            t new_to
          dsimp only
          omega
        · exact keys_nodup_insert _ t new_to (keys_nodup_insert _ f _ hnd)


theorem transfer_from_body_spec (s : PspCoin) (c f t : AccountId) (v : Nat) :
    (transfer_from_body s c f t v).2.total_supply = s.total_supply ∧
    (transfer_from_body s c f t v).2.events = s.events ∧
    ((transfer_from_body s c f t v).1 = .ok →
      sumVals (transfer_from_body s c f t v).2.balances = sumVals s.balances ∧
      ((s.balances.map Prod.fst).Nodup →
        ((transfer_from_body s c f t v).2.balances.map Prod.fst).Nodup)) := by
  unfold transfer_from_body
  split
  next hne =>
    dsimp only
    split
    next hlt => simp
    next hlt =>
      push_neg at hlt
      have hsub : checked_sub ((Mapping.get s.allowances (f, c)).getD 0) v =
          some ((Mapping.get s.allowances (f, c)).getD 0 - v) := by
        unfold checked_sub
        rw [if_pos hlt]
      rw [hsub]
      dsimp only
      have hs := transfer_impl_spec
        { s with allowances := (Mapping.insert s.allowances (f, c)
            ((Mapping.get s.allowances (f, c)).getD 0 - v)) } f t v
      exact ⟨hs.1, hs.2.2.1, hs.2.2.2⟩
  next hne =>
    have hs := transfer_impl_spec s f t v
    exact ⟨hs.1, hs.2.2.1, hs.2.2.2⟩

theorem approve_body_spec (s : PspCoin) (c sp : AccountId) (v : Nat) :
    (approve_body s c sp v).2.total_supply = s.total_supply ∧
    (approve_body s c sp v).2.balances = s.balances ∧
    (approve_body s c sp v).2.events = s.events := by
  unfold approve_body
  split <;> simp

theorem increase_allowance_body_spec (s : PspCoin) (c sp : AccountId) (d : Nat) :
    (increase_allowance_body s c sp d).2.total_supply = s.total_supply ∧
    (increase_allowance_body s c sp d).2.balances = s.balances ∧
    (increase_allowance_body s c sp d).2.events = s.events := by
  unfold increase_allowance_body
  split
  · simp
  · dsimp only
    split <;> simp

theorem decrease_allowance_body_spec (s : PspCoin) (c sp : AccountId) (d : Nat) :
    (decrease_allowance_body s c sp d).2.total_supply = s.total_supply ∧
    (decrease_allowance_body s c sp d).2.balances = s.balances ∧
    (decrease_allowance_body s c sp d).2.events = s.events := by
  unfold decrease_allowance_body
  split
  · simp
  · dsimp only
    split
    · simp
    · split <;> simp

theorem mint_body_inv (s : PspCoin) (c : AccountId) (v : Nat)
    (h : Inv s) (hok : (mint_body s c v).1 = .ok) : Inv (mint_body s c v).2 := by
  rcases hmt : mint_body s c v with ⟨r, s2⟩
  rw [hmt] at hok
  dsimp only at hok ⊢
  subst hok
  unfold mint_body at hmt
  split at hmt
  · cases hmt
    exact h
  next hv =>
    try dsimp only at hmt
    split at hmt
    next =>
      simp only [Prod.mk.injEq] at hmt
      exact absurd hmt.1 (by simp)
    next new_supply heq =>
      try dsimp only at hmt
      split at hmt
      next =>
        simp only [Prod.mk.injEq] at hmt
        exact absurd hmt.1 (by simp)
      next new_balance heq2 =>
        simp only [Prod.mk.injEq] at hmt
        rcases h with ⟨hsum, hnd⟩
        have hval : new_supply = s.total_supply + v := by
          unfold checked_add at heq
          split at heq
          · exact (Option.some_inj.mp heq).symm
          · exact absurd heq (by simp)
        have hval2 : new_balance = (Mapping.get s.balances c).getD 0 + v := by
          unfold checked_add at heq2
          split at heq2
          · exact (Option.some_inj.mp heq2).symm
          · exact absurd heq2 (by simp)
        have e1 := sumVals_insert s.balances c new_balance
        rw [← hmt.2]
        refine ⟨?_, keys_nodup_insert _ c _ hnd⟩
        dsimp only
        omega

theorem burn_body_inv (s : PspCoin) (c : AccountId) (v : Nat)
    (h : Inv s) (hok : (burn_body s c v).1 = .ok) : Inv (burn_body s c v).2 := by
  rcases hmt : burn_body s c v with ⟨r, s2⟩
  rw [hmt] at hok
  dsimp only at hok ⊢
  subst hok
  unfold burn_body at hmt
  split at hmt
  · cases hmt
    exact h
  next hv =>
    try dsimp only at hmt
    split at hmt
    next =>
      simp only [Prod.mk.injEq] at hmt
      exact absurd hmt.1 (by simp)
    next hlt =>
      push_neg at hlt
      have hsub : checked_sub ((Mapping.get s.balances c).getD 0) v =
          some ((Mapping.get s.balances c).getD 0 - v) := by
        unfold checked_sub
        rw [if_pos hlt]
      rw [hsub] at hmt
      dsimp only at hmt
      split at hmt
      next =>
        simp only [Prod.mk.injEq] at hmt
        exact absurd hmt.1 (by simp)
      next new_total heq =>
        simp only [Prod.mk.injEq] at hmt
        rcases h with ⟨hsum, hnd⟩
        have hval : new_total = s.total_supply - v ∧ v ≤ s.total_supply := by
          unfold checked_sub at heq
          split at heq
          next hc => exact ⟨(Option.some_inj.mp heq).symm, hc⟩
          next => exact absurd heq (by simp)
        have e1 := sumVals_insert s.balances c
          ((Mapping.get s.balances c).getD 0 - v)
        rw [← hmt.2]
        refine ⟨?_, keys_nodup_insert _ c _ hnd⟩
        dsimp only
        omega

theorem applyOp_inv (op : Op) (s : PspCoin) (h : Inv s) : Inv (applyOp op s).2 := by
  cases op with
  | transferOp c t v =>
    refine msg_snd_inv _ s h fun hok => ?_
    have hs := transfer_impl_spec s c t v
    rcases h with ⟨hsum, hnd⟩
    rcases hs.2.2.2 hok with ⟨h1, h2⟩
    exact ⟨by rw [hs.1, h1, hsum], h2 hnd⟩
  | transferFromOp c f t v =>
    refine msg_snd_inv _ s h fun hok => ?_
    have hs := transfer_from_body_spec s c f t v
    rcases h with ⟨hsum, hnd⟩
    rcases hs.2.2 hok with ⟨h1, h2⟩
    exact ⟨by rw [hs.1, h1, hsum], h2 hnd⟩
  | approveOp c sp v =>
    refine msg_snd_inv _ s h fun _ => ?_
    have hs := approve_body_spec s c sp v
    exact ⟨by rw [hs.1, hs.2.1, h.1], by rw [hs.2.1]; exact h.2⟩
  | increaseAllowanceOp c sp d =>
    refine msg_snd_inv _ s h fun _ => ?_
    have hs := increase_allowance_body_spec s c sp d
    exact ⟨by rw [hs.1, hs.2.1, h.1], by rw [hs.2.1]; exact h.2⟩
  | decreaseAllowanceOp c sp d =>
    refine msg_snd_inv _ s h fun _ => ?_
    have hs := decrease_allowance_body_spec s c sp d
    exact ⟨by rw [hs.1, hs.2.1, h.1], by rw [hs.2.1]; exact h.2⟩
  | mintOp c v => exact msg_snd_inv _ s h (mint_body_inv s c v h)
  | burnOp c v => exact msg_snd_inv _ s h (burn_body_inv s c v h)

theorem new_inv : Inv new := by
  constructor <;> simp [new, sumVals]

theorem new_with_supply_inv (caller : AccountId) (supply : Nat)
    (name symbol : String) : Inv (new_with_supply caller supply name symbol) := by
  constructor <;> simp [new_with_supply, sumVals, Mapping.insert]

theorem reachable_inv (s : PspCoin) (h : Reachable s) : Inv s := by
  induction h with
  | base_new => exact new_inv
  | base_with_supply caller supply name symbol hb =>
    exact new_with_supply_inv caller supply name symbol
  | step op s hr ih => exact applyOp_inv op s ih

/-- No self-allowance entry ever holds a nonzero value. -/
def SelfAllowZero (s : PspCoin) : Prop :=
  ∀ a : AccountId, (Mapping.get s.allowances (a, a)).getD 0 = 0

theorem selfallow_insert (al : List ((AccountId × AccountId) × Nat))
    (x y : AccountId) (v : Nat) (hxy : x ≠ y)
    (h : ∀ a, (Mapping.get al (a, a)).getD 0 = 0) (a : AccountId) :
    (Mapping.get (Mapping.insert al (x, y) v) (a, a)).getD 0 = 0 := by
  rw [Mapping.get_insert_ne]
  · exact h a
  · intro hEq
    rw [Prod.mk.injEq] at hEq
    exact hxy (hEq.1.symm.trans hEq.2)

theorem mint_body_allowances (s : PspCoin) (c : AccountId) (v : Nat) :
    (mint_body s c v).2.allowances = s.allowances := by
  unfold mint_body
  split
  · rfl
  · dsimp only
    split
    · rfl
    · split <;> rfl

theorem burn_body_allowances (s : PspCoin) (c : AccountId) (v : Nat) :
    (burn_body s c v).2.allowances = s.allowances := by
  unfold burn_body
  split
  · rfl
  · dsimp only
    split
    · rfl
    · split
      · rfl
      · try dsimp only
        split <;> rfl

theorem applyOp_selfallow (op : Op) (s : PspCoin) (h : SelfAllowZero s) :
    SelfAllowZero (applyOp op s).2 := by
  cases op with
  | transferOp c t v =>
    refine msg_snd_inv _ s h fun _ => ?_
    intro a
    rw [(transfer_impl_spec s c t v).2.1]
    exact h a
  | transferFromOp c f t v =>
    refine msg_snd_inv _ s h fun _ => ?_
    unfold transfer_from_body
    split
    next hne =>
      dsimp only
      split
      next => exact h
      next =>
        split
        next => exact h
        next na heq =>
          intro a
          rw [(transfer_impl_spec _ f t v).2.1]
          exact selfallow_insert s.allowances f c na (fun hq => hne hq.symm) h a
    next =>
      intro a
      rw [(transfer_impl_spec s f t v).2.1]
      exact h a
  | approveOp c sp v =>
    refine msg_snd_inv _ s h fun _ => ?_
    unfold approve_body
    split
    next => exact h
    next hne =>
      intro a
      exact selfallow_insert s.allowances c sp v hne h a
  | increaseAllowanceOp c sp d =>
    refine msg_snd_inv _ s h fun _ => ?_
    unfold increase_allowance_body
    split
    next => exact h
    next hg =>
      push_neg at hg
      try dsimp only
      split
      next => exact h
      next na heq =>
        intro a
        exact selfallow_insert s.allowances c sp na hg.1 h a
  | decreaseAllowanceOp c sp d =>
    refine msg_snd_inv _ s h fun _ => ?_
    unfold decrease_allowance_body
    split
    next => exact h
    next hg =>
      push_neg at hg
      try dsimp only
      split
      next => exact h
      next =>
        split
        next => exact h
        next na heq =>
          intro a
          exact selfallow_insert s.allowances c sp na hg.1 h a
  | mintOp c v =>
    refine msg_snd_inv _ s h fun _ => ?_
    intro a
    rw [mint_body_allowances s c v]
    exact h a
  | burnOp c v =>
    refine msg_snd_inv _ s h fun _ => ?_
    intro a
    rw [burn_body_allowances s c v]
    exact h a

theorem reachable_selfallow (s : PspCoin) (h : Reachable s) : SelfAllowZero s := by
  induction h with
  | base_new => intro a; simp [new, Mapping.get]
  | base_with_supply caller supply name symbol hb =>
    intro a
    simp [new_with_supply, Mapping.get]
  | step op s hr ih => exact applyOp_selfallow op s ih

theorem msg_fst (body : PspCoin → MsgResult × PspCoin) (s : PspCoin) :
    (msg body s).1 = (body s).1 := by
  unfold msg
  rcases body s with ⟨r, s2⟩
  cases r <;> rfl

/-- C1: starting from any constructed state (`new` or `new_with_supply`),
after every sequence of mutating calls the total supply equals the sum of
all materialized balance entries; the entry keys stay pairwise distinct, so
that sum is the sum of `balance_of` over every touched account. -/
theorem conservation_of_supply (s : PspCoin) (h : Reachable s) :
    s.total_supply = sumVals s.balances ∧ (s.balances.map Prod.fst).Nodup :=
  reachable_inv s h

theorem conservation_of_supply_witness :
    (applyOp (Op.transferOp 0 1 100)
        (new_with_supply 0 1000 ("PolkaToken") ("PLKT"))).2.total_supply =
      sumVals (applyOp (Op.transferOp 0 1 100)
        (new_with_supply 0 1000 ("PolkaToken") ("PLKT"))).2.balances ∧
    ((applyOp (Op.transferOp 0 1 100)
        (new_with_supply 0 1000 ("PolkaToken") ("PLKT"))).2.balances.map
      Prod.fst).Nodup :=
  conservation_of_supply _
    (Reachable.step _ _
      (Reachable.base_with_supply 0 1000 ("PolkaToken") ("PLKT") (by decide)))

/-- C2: a `transfer_from` call that returns an error leaves the whole state
(balances, allowances, event log) exactly as before the call. -/
theorem transfer_from_error_atomicity (s : PspCoin)
    (caller source target : AccountId) (value : Nat) (e : PSP22Error)
    (herr : (transfer_from s caller source target value).1 = .err e) :
    (transfer_from s caller source target value).2 = s := by
  simp only [transfer_from, msg] at herr ⊢
  rcases hb : transfer_from_body s caller source target value with ⟨r, s2⟩
  rw [hb] at herr
  cases r
  · exact MsgResult.noConfusion herr
  · rfl

theorem transfer_from_error_atomicity_witness :
    (transfer_from (new_with_supply 0 1000 ("PolkaToken") ("PLKT")) 1 0 2 5).1 =
      .err .insufficientAllowance ∧
    (transfer_from (new_with_supply 0 1000 ("PolkaToken") ("PLKT")) 1 0 2 5).2 =
      new_with_supply 0 1000 ("PolkaToken") ("PLKT") :=
  ⟨by decide,
    transfer_from_error_atomicity _ 1 0 2 5 .insufficientAllowance (by decide)⟩

/-- C4: a successful delegated transfer performed by a spender distinct from
the owner decreases the (owner, spender) allowance by exactly the
transferred amount, whatever the destination and amount. -/
theorem transfer_from_allowance_decrement (s : PspCoin)
    (owner spender target : AccountId) (value : Nat) (s2 : PspCoin)
    (hne : spender ≠ owner)
    (hok : transfer_from s spender owner target value = (.ok, s2)) :
    allowance s2 owner spender + value = allowance s owner spender := by
  simp only [transfer_from, msg] at hok
  rcases hb : transfer_from_body s spender owner target value with ⟨r, sb⟩
  rw [hb] at hok
  cases r with
  | err e => exact absurd hok (by simp)
  | ok =>
    simp only [Prod.mk.injEq, true_and] at hok
    subst hok
    unfold transfer_from_body at hb
    rw [if_pos hne] at hb
    dsimp only at hb
    split at hb
    next hlt =>
      simp only [Prod.mk.injEq] at hb
      exact absurd hb.1 (by simp)
    next hlt =>
      push_neg at hlt
      have hsub : checked_sub ((Mapping.get s.allowances (owner, spender)).getD 0)
          value = some ((Mapping.get s.allowances (owner, spender)).getD 0 - value) := by
        unfold checked_sub
        rw [if_pos hlt]
      rw [hsub] at hb
      dsimp only at hb
      have h2 : sb.allowances = Mapping.insert s.allowances (owner, spender)
          ((Mapping.get s.allowances (owner, spender)).getD 0 - value) := by
        have h3 := congrArg Prod.snd hb
        dsimp only at h3
        rw [← h3]
        exact (transfer_impl_spec _ owner target value).2.1
      unfold allowance
      rw [h2, Mapping.get_insert_self]
      dsimp only [Option.getD_some]
      omega

theorem transfer_from_allowance_decrement_witness :
    (1 : AccountId) ≠ 0 ∧
    transfer_from
        ((approve (new_with_supply 0 1000 ("PolkaToken") ("PLKT")) 0 1 200).2)
        1 0 2 150 =
      (.ok, (transfer_from
        ((approve (new_with_supply 0 1000 ("PolkaToken") ("PLKT")) 0 1 200).2)
        1 0 2 150).2) ∧
    allowance (transfer_from
        ((approve (new_with_supply 0 1000 ("PolkaToken") ("PLKT")) 0 1 200).2)
        1 0 2 150).2 0 1 + 150 =
      allowance ((approve (new_with_supply 0 1000 ("PolkaToken") ("PLKT")) 0 1 200).2) 0 1 :=
  ⟨by decide, by decide,
    transfer_from_allowance_decrement _ 0 1 2 150 _ (by decide) (by decide)⟩

/-- C5: when the caller differs from the destination, the amount is positive
and exceeds the caller's balance, `transfer` fails with
`InsufficientBalance` and returns the state (balances and event log)
unchanged. -/
theorem transfer_insufficient_balance (s : PspCoin) (caller target : AccountId)
    (value : Nat) (hne : caller ≠ target) (hpos : 0 < value)
    (hlt : balance_of s caller < value) :
    transfer s caller target value = (.err .insufficientBalance, s) := by
  have hg : ¬ (caller = target ∨ value = 0) := by
    push_neg
    exact ⟨hne, by omega⟩
  unfold balance_of at hlt
  simp only [transfer, msg, transfer_impl]
  rw [if_neg hg]
  try dsimp only
  rw [if_pos hlt]

theorem transfer_insufficient_balance_witness :
    (0 : AccountId) ≠ 1 ∧ 0 < 1001 ∧
    balance_of (new_with_supply 0 1000 ("PolkaToken") ("PLKT")) 0 < 1001 ∧
    transfer (new_with_supply 0 1000 ("PolkaToken") ("PLKT")) 0 1 1001 =
      (.err .insufficientBalance, new_with_supply 0 1000 ("PolkaToken") ("PLKT")) :=
  ⟨by decide, by decide, by decide,
    transfer_insufficient_balance _ 0 1 1001 (by decide) (by decide) (by decide)⟩

theorem approve_ok_state (s : PspCoin) (owner spender : AccountId) (v : Nat)
    (hne : owner ≠ spender) :
    approve s owner spender v =
      (.ok, { s with
        allowances := Mapping.insert s.allowances (owner, spender) v }) := by
  simp [approve, msg, approve_body, if_neg hne]

/-- C6: two successive approvals by the same owner for the same distinct
spender overwrite: the remaining allowance is the second value, not the
sum. -/
theorem approve_overwrites (s : PspCoin) (owner spender : AccountId)
    (v1 v2 : Nat) (hne : owner ≠ spender) :
    (approve s owner spender v1).1 = .ok ∧
    (approve (approve s owner spender v1).2 owner spender v2).1 = .ok ∧
    allowance (approve (approve s owner spender v1).2 owner spender v2).2
      owner spender = v2 := by
  rw [approve_ok_state s owner spender v1 hne]
  dsimp only
  rw [approve_ok_state _ owner spender v2 hne]
  dsimp only
  refine ⟨rfl, rfl, ?_⟩
  unfold allowance
  rw [Mapping.get_insert_self]
  rfl

theorem approve_overwrites_witness :
    (0 : AccountId) ≠ 1 ∧
    allowance (approve (approve (new_with_supply 0 1000 ("PolkaToken") ("PLKT"))
      0 1 70).2 0 1 40).2 0 1 = 40 :=
  ⟨by decide, (approve_overwrites _ 0 1 70 40 (by decide)).2.2⟩

/-- C7: in any reachable state, burning zero succeeds without change;
burning a positive amount above the caller's balance fails with
`InsufficientBalance` and changes nothing; otherwise burn succeeds and
decreases the caller's balance and the total supply by exactly the
amount. -/
theorem burn_semantics (s : PspCoin) (caller : AccountId) (value : Nat)
    (h : Reachable s) :
    (value = 0 → burn s caller value = (.ok, s)) ∧
    (value ≠ 0 → balance_of s caller < value →
      burn s caller value = (.err .insufficientBalance, s)) ∧
    (value ≠ 0 → value ≤ balance_of s caller →
      (burn s caller value).1 = .ok ∧
      balance_of (burn s caller value).2 caller + value = balance_of s caller ∧
      (burn s caller value).2.total_supply + value = s.total_supply) := by
  have hinv := reachable_inv s h
  have hble : (Mapping.get s.balances caller).getD 0 ≤ s.total_supply := by
    rw [hinv.1]
    exact get_le_sumVals s.balances caller
  refine ⟨?_, ?_, ?_⟩
  · intro hz
    subst hz
    simp [burn, msg, burn_body]
  · intro hnz hlt
    unfold balance_of at hlt
    simp only [burn, msg, burn_body, if_neg hnz]
    rw [if_pos hlt]
  · intro hnz hge
    unfold balance_of at hge
    have hblt : ¬ ((Mapping.get s.balances caller).getD 0 < value) := by omega
    have hsub1 : checked_sub ((Mapping.get s.balances caller).getD 0) value =
        some ((Mapping.get s.balances caller).getD 0 - value) := by
      unfold checked_sub
      rw [if_pos hge]
    have hsub2 : checked_sub s.total_supply value =
        some (s.total_supply - value) := by
      unfold checked_sub
      rw [if_pos (le_trans hge hble)]
    simp only [burn, msg, burn_body, if_neg hnz, if_neg hblt, hsub1, hsub2]
    refine ⟨by trivial, ?_, ?_⟩
    · unfold balance_of
      dsimp only
      rw [Mapping.get_insert_self]
      dsimp only [Option.getD_some]
      omega
    · dsimp only
      omega

theorem burn_semantics_witness :
    ((300 : Nat) = 0 →
      burn (new_with_supply 0 1000 ("PolkaToken") ("PLKT")) 0 300 =
        (.ok, new_with_supply 0 1000 ("PolkaToken") ("PLKT"))) ∧
    ((300 : Nat) ≠ 0 →
      balance_of (new_with_supply 0 1000 ("PolkaToken") ("PLKT")) 0 < 300 →
      burn (new_with_supply 0 1000 ("PolkaToken") ("PLKT")) 0 300 =
        (.err .insufficientBalance, new_with_supply 0 1000 ("PolkaToken") ("PLKT"))) ∧
    ((300 : Nat) ≠ 0 →
      300 ≤ balance_of (new_with_supply 0 1000 ("PolkaToken") ("PLKT")) 0 →
      (burn (new_with_supply 0 1000 ("PolkaToken") ("PLKT")) 0 300).1 = .ok ∧
      balance_of (burn (new_with_supply 0 1000 ("PolkaToken") ("PLKT")) 0 300).2 0
          + 300 =
        balance_of (new_with_supply 0 1000 ("PolkaToken") ("PLKT")) 0 ∧
      (burn (new_with_supply 0 1000 ("PolkaToken") ("PLKT")) 0 300).2.total_supply
          + 300 =
        (new_with_supply 0 1000 ("PolkaToken") ("PLKT")).total_supply) :=
  burn_semantics _ 0 300
    (Reachable.base_with_supply 0 1000 ("PolkaToken") ("PLKT") (by decide))

/-- C8: the queries are total pure reads with zero defaults: `balance_of`
returns the stored balance, or zero when no entry exists, and `allowance`
returns the stored allowance, or zero when no entry exists. -/
theorem query_zero_defaults (s : PspCoin) (owner spender : AccountId) :
    (Mapping.get s.balances owner = none → balance_of s owner = 0) ∧
    (∀ v, Mapping.get s.balances owner = some v → balance_of s owner = v) ∧
    (Mapping.get s.allowances (owner, spender) = none →
      allowance s owner spender = 0) ∧
    (∀ v, Mapping.get s.allowances (owner, spender) = some v →
      allowance s owner spender = v) := by
  refine ⟨fun h => ?_, fun v h => ?_, fun h => ?_, fun v h => ?_⟩ <;>
    simp [balance_of, allowance, h]

theorem query_zero_defaults_witness :
    balance_of (new_with_supply 0 1000 ("PolkaToken") ("PLKT")) 7 = 0 ∧
    allowance (new_with_supply 0 1000 ("PolkaToken") ("PLKT")) 7 8 = 0 :=
  ⟨(query_zero_defaults (new_with_supply 0 1000 ("PolkaToken") ("PLKT")) 7 8).1
      (by decide),
    (query_zero_defaults (new_with_supply 0 1000 ("PolkaToken") ("PLKT")) 7 8).2.2.1
      (by decide)⟩

/-- C9: in every reachable state the self-allowance of every account is
zero: approve and increase_allowance return Ok without writing when the
caller equals the spender, and transfer_from never writes an allowance
keyed by equal accounts. -/
theorem self_allowance_zero (s : PspCoin) (h : Reachable s) (a : AccountId) :
    allowance s a a = 0 :=
  reachable_selfallow s h a

theorem self_allowance_zero_witness :
    allowance (applyOp (Op.approveOp 0 1 50)
      (new_with_supply 0 1000 ("PolkaToken") ("PLKT"))).2 0 0 = 0 :=
  self_allowance_zero _
    (Reachable.step _ _
      (Reachable.base_with_supply 0 1000 ("PolkaToken") ("PLKT") (by decide))) 0

theorem transfer_impl_result (s : PspCoin) (f t : AccountId) (v : Nat)
    (hsum : s.total_supply = sumVals s.balances)
    (hmax : s.total_supply ≤ U128_MAX) :
    (transfer_impl s f t v).1 = .ok ∨
    (transfer_impl s f t v).1 = .err .insufficientBalance := by
  unfold transfer_impl
  split
  · left
    rfl
  next hg =>
    push_neg at hg
    dsimp only
    split
    next => right; rfl
    next hlt =>
      push_neg at hlt
      have hsub : checked_sub ((Mapping.get s.balances f).getD 0) v =
          some ((Mapping.get s.balances f).getD 0 - v) := by
        unfold checked_sub
        rw [if_pos hlt]
      rw [hsub]
      dsimp only
      have hpair := get_pair_le_sumVals s.balances f t hg.1
      have hget : Mapping.get (Mapping.insert s.balances f
            ((Mapping.get s.balances f).getD 0 - v)) t =
          Mapping.get s.balances t :=
        Mapping.get_insert_ne _ _ _ _ (fun hq => hg.1 hq.symm)
      have hadd : checked_add ((Mapping.get (Mapping.insert s.balances f
            ((Mapping.get s.balances f).getD 0 - v)) t).getD 0) v =
          some ((Mapping.get s.balances t).getD 0 + v) := by
        rw [hget]
        unfold checked_add
        rw [if_pos (by omega)]
      rw [hadd]
      left
      rfl

theorem burn_body_result (s : PspCoin) (c : AccountId) (v : Nat)
    (hsum : s.total_supply = sumVals s.balances) :
    (burn_body s c v).1 = .ok ∨
    (burn_body s c v).1 = .err .insufficientBalance := by
  unfold burn_body
  split
  · left; rfl
  next hv =>
    dsimp only
    split
    next => right; rfl
    next hlt =>
      push_neg at hlt
      have hble := get_le_sumVals s.balances c
      have hsub1 : checked_sub ((Mapping.get s.balances c).getD 0) v =
          some ((Mapping.get s.balances c).getD 0 - v) := by
        unfold checked_sub
        rw [if_pos hlt]
      rw [hsub1]
      dsimp only
      have hsub2 : checked_sub s.total_supply v =
          some (s.total_supply - v) := by
        unfold checked_sub
        rw [if_pos (by omega)]
      rw [hsub2]
      left
      rfl

theorem mint_body_result (s : PspCoin) (c : AccountId) (v : Nat)
    (hsum : s.total_supply = sumVals s.balances) :
    (mint_body s c v).1 = .ok ∨
    (mint_body s c v).1 = .err (.custom ("max supply exceeded")) := by
  unfold mint_body
  split
  · left; rfl
  next hv =>
    dsimp only
    rcases ha : checked_add s.total_supply v with _ | new_supply
    · right; rfl
    · have hval : new_supply = s.total_supply + v ∧ s.total_supply + v ≤ U128_MAX := by
        unfold checked_add at ha
        split at ha
        next hc => exact ⟨(Option.some_inj.mp ha).symm, hc⟩
        next => exact absurd ha (by simp)
      dsimp only
      have hble := get_le_sumVals s.balances c
      have ha2 : checked_add ((Mapping.get s.balances c).getD 0) v =
          some ((Mapping.get s.balances c).getD 0 + v) := by
        unfold checked_add
        rw [if_pos (by omega)]
      rw [ha2]
      left
      rfl

theorem increase_allowance_body_result (s : PspCoin) (c sp : AccountId)
    (d : Nat) :
    (increase_allowance_body s c sp d).1 = .ok ∨
    (increase_allowance_body s c sp d).1 =
      .err (.custom ("arithmetic overflow")) := by
  unfold increase_allowance_body
  split
  · left; rfl
  · dsimp only
    split
    · right; rfl
    · left; rfl

theorem decrease_allowance_body_result (s : PspCoin) (c sp : AccountId)
    (d : Nat) :
    (decrease_allowance_body s c sp d).1 = .ok ∨
    (decrease_allowance_body s c sp d).1 = .err .insufficientAllowance := by
  unfold decrease_allowance_body
  split
  · left; rfl
  · dsimp only
    split
    next => right; rfl
    next hlt =>
      push_neg at hlt
      have hsub : checked_sub ((Mapping.get s.allowances (c, sp)).getD 0) d =
          some ((Mapping.get s.allowances (c, sp)).getD 0 - d) := by
        unfold checked_sub
        rw [if_pos hlt]
      rw [hsub]
      left
      rfl

theorem transfer_from_body_result (s : PspCoin) (c f t : AccountId) (v : Nat)
    (hsum : s.total_supply = sumVals s.balances)
    (hmax : s.total_supply ≤ U128_MAX) :
    (transfer_from_body s c f t v).1 = .ok ∨
    (transfer_from_body s c f t v).1 = .err .insufficientAllowance ∨
    (transfer_from_body s c f t v).1 = .err .insufficientBalance := by
  unfold transfer_from_body
  split
  next hne =>
    dsimp only
    split
    next => right; left; rfl
    next hlt =>
      push_neg at hlt
      have hsub : checked_sub ((Mapping.get s.allowances (f, c)).getD 0) v =
          some ((Mapping.get s.allowances (f, c)).getD 0 - v) := by
        unfold checked_sub
        rw [if_pos hlt]
      rw [hsub]
      dsimp only
      rcases transfer_impl_result
          { s with allowances := (Mapping.insert s.allowances (f, c)
            ((Mapping.get s.allowances (f, c)).getD 0 - v)) } f t v hsum hmax
        with hr | hr
      · left; exact hr
      · right; right; exact hr
  next =>
    rcases transfer_impl_result s f t v hsum hmax with hr | hr
    · left; exact hr
    · right; right; exact hr

/-- The precondition of the claim: every materialized balance entry is at
most the total supply. -/
def balancesBounded (s : PspCoin) : Prop :=
  ∀ e ∈ s.balances, e.2 ≤ s.total_supply

instance (s : PspCoin) : Decidable (balancesBounded s) := by
  unfold balancesBounded
  infer_instance

/-- Two accounts each holding up to the whole supply satisfy the
individual-balance bound while their balances sum to more than `u128::MAX`,
so a transfer of the whole first balance overflows the destination. -/
def cexC10 : PspCoin :=
  { total_supply := U128_MAX
    balances := [(0, U128_MAX), (1, 1)]
    allowances := []
    name := "PolkaToken"
    symbol := "PLKT"
    decimals := 18
    events := [] }

/-- C10 counterexample: under the claim's stated precondition (every
individual balance at most the total supply) the destination checked_add
overflow branch of `_transfer` IS reachable: in `cexC10` the bound holds,
yet transferring the whole first balance to the second account returns the
arithmetic-overflow custom error. -/
theorem arith_overflow_reachable_under_stated_precondition :
    balancesBounded cexC10 ∧
    (transfer cexC10 0 1 U128_MAX).1 = .err (.custom ("arithmetic overflow")) := by
  constructor <;> decide

/-- C10 amended: under the conservation invariant (total supply equals the
sum of materialized balances, and fits in a u128), the checked_sub
underflow branches in `_transfer`, `burn`, `decrease_allowance` and
`transfer_from`, and the checked_add overflow branches for the destination
balance in `_transfer` and the caller balance in `mint`, are never taken:
the only reachable arithmetic failures are the total-supply overflow in
`mint` and the allowance overflow in `increase_allowance`. -/
theorem arith_branches_unreachable (s : PspCoin)
    (hsum : s.total_supply = sumVals s.balances)
    (hmax : s.total_supply ≤ U128_MAX) :
    (∀ c t v, (transfer s c t v).1 = .ok ∨
      (transfer s c t v).1 = .err .insufficientBalance) ∧
    (∀ c f t v, (transfer_from s c f t v).1 = .ok ∨
      (transfer_from s c f t v).1 = .err .insufficientAllowance ∨
      (transfer_from s c f t v).1 = .err .insufficientBalance) ∧
    (∀ c v, (burn s c v).1 = .ok ∨
      (burn s c v).1 = .err .insufficientBalance) ∧
    (∀ c sp d, (decrease_allowance s c sp d).1 = .ok ∨
      (decrease_allowance s c sp d).1 = .err .insufficientAllowance) ∧
    (∀ c v, (mint s c v).1 = .ok ∨
      (mint s c v).1 = .err (.custom ("max supply exceeded"))) ∧
    (∀ c sp d, (increase_allowance s c sp d).1 = .ok ∨
      (increase_allowance s c sp d).1 = .err (.custom ("arithmetic overflow"))) ∧
    (∀ c sp v, (approve s c sp v).1 = .ok) := by
  refine ⟨fun c t v => ?_, fun c f t v => ?_, fun c v => ?_, fun c sp d => ?_,
    fun c v => ?_, fun c sp d => ?_, fun c sp v => ?_⟩
  · rw [transfer, msg_fst]
    exact transfer_impl_result s c t v hsum hmax
  · rw [transfer_from, msg_fst]
    exact transfer_from_body_result s c f t v hsum hmax
  · rw [burn, msg_fst]
    exact burn_body_result s c v hsum
  · rw [decrease_allowance, msg_fst]
    exact decrease_allowance_body_result s c sp d
  · rw [mint, msg_fst]
    exact mint_body_result s c v hsum
  · rw [increase_allowance, msg_fst]
    exact increase_allowance_body_result s c sp d
  · rw [approve, msg_fst]
    unfold approve_body
    split <;> rfl

theorem arith_branches_unreachable_witness :
    (transfer (new_with_supply 0 1000 ("PolkaToken") ("PLKT")) 0 1 100).1 =
      .ok ∨
    (transfer (new_with_supply 0 1000 ("PolkaToken") ("PLKT")) 0 1 100).1 =
      .err .insufficientBalance :=
  (arith_branches_unreachable _ (by decide) (by decide)).1 0 1 100

namespace Erc20

set_option linter.dupNamespace false

/-- Largest value representable in the 256-bit amount type used by the
base-variant realization. -/
def U256_MAX : Nat := 2 ^ 256 - 1

/-- Errors surfaced by the base-variant realization: the two
balance/allowance kinds, plus the overflow error of spec section 4.2
step 3. -/
inductive Error where
  | insufficientBalance
  | insufficientAllowance
  | overflow
deriving DecidableEq

/-- Domain events of the base variant: Transfer with optional endpoints,
Approval. -/
inductive Evt where
  | transferEvt (source target : Option AccountId) (value : Nat)
  | approvalEvt (owner spender : AccountId) (value : Nat)
deriving DecidableEq

/-- Ledger state of the base-variant realization, with its event log. -/
structure Erc20 where
  total_supply : Nat
  balances : List (AccountId × Nat)
  allowances : List ((AccountId × AccountId) × Nat)
  events : List Evt
deriving DecidableEq

/-- Outcome of a base-variant call. -/
inductive TxResult where
  | ok
  | err (e : Error)
deriving DecidableEq

/-- Modelled from the spec: the event-emitting base-variant realization
(`Erc20`) is present under `src/` only through its tests (`src/test.rs`,
`src/contracts/erc20/test.rs`) and a proxying caller
(`src/contracts/caller/lib.rs`); its own `lib.rs` is absent.  Spec
section 4.2 `transfer`: fail with `InsufficientBalance` when the source
balance is below the amount; otherwise atomically subtract the amount from
the source and add it to the destination with checked arithmetic (an
overflow of the destination is an error that retains no mutation, I3),
then emit exactly one Transfer event `(from=Some(from), to=Some(to),
amount)`.  Absent entries read as zero; per section 4.2 step 1 the base
variant performs the balance check and emits the event also in the
zero-amount and self-transfer cases. -/
def transfer (self : Erc20) (caller target : AccountId) (value : Nat) :
    TxResult × Erc20 :=
  let from_balance := (Mapping.get self.balances caller).getD 0
  if from_balance < value then (.err .insufficientBalance, self)
  else
    let s1 := { self with
      balances := Mapping.insert self.balances caller (from_balance - value) }
    let to_balance := (Mapping.get s1.balances target).getD 0
    if to_balance + value ≤ U256_MAX then
      (.ok, { s1 with
        balances := Mapping.insert s1.balances target (to_balance + value)
        events := s1.events ++
          [Evt.transferEvt (some caller) (some target) value] })
    else (.err .overflow, self)

/-- C3: every successful transfer call of the event-emitting realization
appends exactly one Transfer event carrying (from=Some(from), to=Some(to),
amount) to the log, and every failing transfer call appends none. -/
theorem transfer_event_emission (s : Erc20) (caller target : AccountId)
    (value : Nat) :
    ((transfer s caller target value).1 = .ok →
      (transfer s caller target value).2.events =
        s.events ++ [Evt.transferEvt (some caller) (some target) value]) ∧
    (∀ e, (transfer s caller target value).1 = .err e →
      (transfer s caller target value).2.events = s.events) := by
  unfold transfer
  dsimp only
  split
  next => exact ⟨fun h => absurd h (by simp), fun e _ => rfl⟩
  next =>
    split
    next => exact ⟨fun _ => rfl, fun e he => absurd he (by simp)⟩
    next => exact ⟨fun h => absurd h (by simp), fun e _ => rfl⟩

theorem transfer_event_emission_witness :
    (transfer ⟨1000, [(0, 1000)], [], []⟩ 0 1 100).2.events =
      ([] : List Evt) ++ [Evt.transferEvt (some 0) (some 1) 100] :=
  (transfer_event_emission ⟨1000, [(0, 1000)], [], []⟩ 0 1 100).1 (by decide)

end Erc20
